import Mathlib

/-!
# boldbadger: the cache-deduplicated image fetch pipeline

A shallow embedding of `main.go`.  Go strings are byte sequences, so a string
is a list of bytes.  The library calls the program makes are embedded by what
they compute: `crypto/md5` (RFC 1321), `encoding/hex`, `strings.Split` with the
one-byte separator the program passes, and `filepath.Ext` with the path
separator of a Unix host.  The goroutines of `run` are embedded as units that
advance by atomic actions under an arbitrary schedule; what the cache file
decodes to and what the network, the disk and the external commands answer is
given from outside.  A Go map is nil or allocated: a nil map reads as empty,
and assigning into it panics, which ends the process.
-/

namespace Boldbadger

/-! ## Strings -/

/-- A byte. -/
abbrev Byte := Fin 256

/-- A Go string: a sequence of bytes. -/
abbrev GoString := List Byte

/-- The bytes of an ASCII literal. -/
def ascii (s : String) : GoString :=
  s.toList.map (fun c => Fin.ofNat c.toNat)

/-! ## crypto/md5 -/

/-- Per-round left-rotation amounts of MD5. -/
def md5Shift : List Nat :=
  [7, 12, 17, 22, 7, 12, 17, 22, 7, 12, 17, 22, 7, 12, 17, 22,
   5, 9, 14, 20, 5, 9, 14, 20, 5, 9, 14, 20, 5, 9, 14, 20,
   4, 11, 16, 23, 4, 11, 16, 23, 4, 11, 16, 23, 4, 11, 16, 23,
   6, 10, 15, 21, 6, 10, 15, 21, 6, 10, 15, 21, 6, 10, 15, 21]

/-- Per-round additive constants of MD5. -/
def md5K : List Nat :=
  [0xd76aa478, 0xe8c7b756, 0x242070db, 0xc1bdceee,
   0xf57c0faf, 0x4787c62a, 0xa8304613, 0xfd469501,
   0x698098d8, 0x8b44f7af, 0xffff5bb1, 0x895cd7be,
   0x6b901122, 0xfd987193, 0xa679438e, 0x49b40821,
   0xf61e2562, 0xc040b340, 0x265e5a51, 0xe9b6c7aa,
   0xd62f105d, 0x02441453, 0xd8a1e681, 0xe7d3fbc8,
   0x21e1cde6, 0xc33707d6, 0xf4d50d87, 0x455a14ed,
   0xa9e3e905, 0xfcefa3f8, 0x676f02d9, 0x8d2a4c8a,
   0xfffa3942, 0x8771f681, 0x6d9d6122, 0xfde5380c,
   0xa4beea44, 0x4bdecfa9, 0xf6bb4b60, 0xbebfbc70,
   0x289b7ec6, 0xeaa127fa, 0xd4ef3085, 0x04881d05,
   0xd9d4d039, 0xe6db99e5, 0x1fa27cf8, 0xc4ac5665,
   0xf4292244, 0x432aff97, 0xab9423a7, 0xfc93a039,
   0x655b59c3, 0x8f0ccc92, 0xffeff47d, 0x85845dd1,
   0x6fa87e4f, 0xfe2ce6e0, 0xa3014314, 0x4e0811a1,
   0xf7537e82, 0xbd3af235, 0x2ad7d2bb, 0xeb86d391]

/-- A 32-bit word is a natural number below `2 ^ 32`. -/
def w32 (x : Nat) : Nat := x % 2 ^ 32

/-- Bitwise complement of a 32-bit word. -/
def not32 (x : Nat) : Nat := w32 x ^^^ 0xffffffff

/-- Left rotation of a 32-bit word. -/
def rotl32 (x n : Nat) : Nat :=
  w32 ((w32 x <<< n) ||| (w32 x >>> (32 - n)))

/-- The four chaining words of MD5. -/
structure Md5State where
  a : Nat
  b : Nat
  c : Nat
  d : Nat
deriving DecidableEq, Repr

/-- The initial chaining value. -/
def md5Init : Md5State :=
  { a := 0x67452301, b := 0xefcdab89, c := 0x98badcfe, d := 0x10325476 }

/-- Little-endian 32-bit word starting at byte `4 * g` of a block. -/
def blockWord (block : List Byte) (g : Nat) : Nat :=
  (block.getD (4 * g) 0).val
    + (block.getD (4 * g + 1) 0).val * 2 ^ 8
    + (block.getD (4 * g + 2) 0).val * 2 ^ 16
    + (block.getD (4 * g + 3) 0).val * 2 ^ 24

/-- One of the 64 operations on a block. -/
def md5Op (block : List Byte) (st : Md5State) (i : Nat) : Md5State :=
  let f :=
    if i < 16 then (st.b &&& st.c) ||| (not32 st.b &&& st.d)
    else if i < 32 then (st.d &&& st.b) ||| (not32 st.d &&& st.c)
    else if i < 48 then st.b ^^^ st.c ^^^ st.d
    else st.c ^^^ (st.b ||| not32 st.d)
  let g :=
    if i < 16 then i
    else if i < 32 then (5 * i + 1) % 16
    else if i < 48 then (3 * i + 5) % 16
    else (7 * i) % 16
  let t := w32 (f + st.a + md5K.getD i 0 + blockWord block g)
  { a := st.d, b := w32 (st.b + rotl32 t (md5Shift.getD i 0)), c := st.b, d := st.c }

/-- The compression function: 64 operations, then the feed-forward. -/
def md5Block (st : Md5State) (block : List Byte) : Md5State :=
  let r := (List.range 64).foldl (md5Op block) st
  { a := w32 (st.a + r.a), b := w32 (st.b + r.b),
    c := w32 (st.c + r.c), d := w32 (st.d + r.d) }

/-- Little-endian bytes of a number, `n` of them. -/
def leBytes : Nat → Nat → List Byte
  | 0, _ => []
  | n + 1, x => Fin.ofNat (x % 256) :: leBytes n (x / 256)

/-- The padding: a one bit, zeros up to 56 modulo 64, the bit length on 8 bytes. -/
def md5Pad (msg : List Byte) : List Byte :=
  msg ++ [0x80] ++ List.replicate ((119 - msg.length % 64) % 64) 0
    ++ leBytes 8 ((8 * msg.length) % 2 ^ 64)

/-- Fold the compression function over the 64-byte blocks of the input. -/
def md5Blocks : Nat → Md5State → List Byte → Md5State
  | 0, st, _ => st
  | n + 1, st, bytes => md5Blocks n (md5Block st (bytes.take 64)) (bytes.drop 64)

/-- The 16-byte digest: `md5.New`, `Write`, `Sum(nil)`. -/
def md5Sum (msg : List Byte) : List Byte :=
  let p := md5Pad msg
  let st := md5Blocks (p.length / 64) md5Init p
  leBytes 4 st.a ++ leBytes 4 st.b ++ leBytes 4 st.c ++ leBytes 4 st.d

/-! ## encoding/hex -/

/-- The digit table of `encoding/hex`. -/
def hextable : List Byte := ascii "0123456789abcdef"

/-- The two digits of one byte. -/
def hexByte (v : Byte) : List Byte :=
  [hextable.getD (v.val >>> 4) 0, hextable.getD (v.val &&& 0x0f) 0]

/-- Hexadecimal encoding, `hex.EncodeToString`. -/
def hexEncodeToString (src : List Byte) : GoString :=
  src.flatMap hexByte

/-- The cache key of a URL (`urlToKey`). -/
def urlToKey (url : GoString) : GoString :=
  hexEncodeToString (md5Sum url)

/-! ## strings.Split and filepath.Ext -/

/-- The byte `?`. -/
def questionMark : Byte := 63

/-- The byte `.`. -/
def dot : Byte := 46

/-- The byte `/`. -/
def slash : Byte := 47

/-- Number of occurrences of a one-byte separator, `strings.Count`. -/
def Count (s : GoString) (sep : Byte) : Nat :=
  s.count sep

/-- Index of the first occurrence of a one-byte separator, `strings.Index`;
`none` stands for `-1`. -/
def Index : GoString → Byte → Option Nat
  | [], _ => none
  | b :: rest, sep => if b = sep then some 0 else (Index rest sep).map (· + 1)

/-- The loop of `genSplit`, run at most `n` times: cut at the next separator. -/
def splitLoop (sep : Byte) : Nat → GoString → List GoString
  | 0, s => [s]
  | n + 1, s =>
    match Index s sep with
    | none => [s]
    | some m => s.take m :: splitLoop sep n (s.drop (m + 1))

/-- The substrings between occurrences of a one-byte separator,
`strings.Split(s, sep)`: `genSplit` with `n = Count(s, sep) + 1`. -/
def Split (s : GoString) (sep : Byte) : List GoString :=
  splitLoop sep (Count s sep) s

/-- Path separator test of a Unix host, `os.IsPathSeparator`. -/
def IsPathSeparator (c : Byte) : Bool :=
  c = slash

/-- The loop of `filepath.Ext`, `k` being `i + 1`: scan backwards from the
last byte until a path separator. -/
def extLoop (path : GoString) : Nat → GoString
  | 0 => []
  | i + 1 =>
    if IsPathSeparator (path.getD i 0) then []
    else if path.getD i 0 = dot then path.drop i
    else extLoop path i

/-- The file name extension, `filepath.Ext`: the suffix beginning at the final
dot in the final element of the path, empty if there is no dot. -/
def Ext (path : GoString) : GoString :=
  extLoop path path.length

/-- Lines 257-258 of `run`: the URL up to its first question mark,
`strings.Split(imageURL, "?")[0]`. -/
def cleanURL (imageURL : GoString) : GoString :=
  (Split imageURL questionMark).headD []

/-- Lines 260-263 of `run`: hex MD5 of the raw URL, computed inline. -/
def hashStr (imageURL : GoString) : GoString :=
  hexEncodeToString (md5Sum imageURL)

/-- Lines 265-268 of `run`: the extension, `.jpg` when there is none. -/
def extOf (imageURL : GoString) : GoString :=
  if Ext (cleanURL imageURL) = [] then ascii ".jpg" else Ext (cleanURL imageURL)

/-- Line 269 of `run`: the file a fresh download is written to. -/
def fileName (imageURL : GoString) : GoString :=
  ascii "images/" ++ hashStr imageURL ++ extOf imageURL

/-! ## The cache -/

/-- An instant, `time.Time`. -/
abbrev Time := Int

/-- An entry in the cache. -/
structure CacheEntry where
  URL : GoString
  FilePath : GoString
  FetchedAt : Time
  StatusCode : Int
deriving DecidableEq, Repr

/-- The entry mapping of a cache, `map[string]CacheEntry`. -/
abbrev Entries := GoString → Option CacheEntry

/-- The mapping of `NewCache`. -/
def NewCache : Entries := fun _ => none

/-- Look a URL up by its key, `Cache.Get`; `none` when `exists` is false. -/
def Cache.Get (c : Entries) (url : GoString) : Option CacheEntry :=
  c (urlToKey url)

/-- Insert or overwrite under the key of a URL, `Cache.Set`, on a map that is
allocated.  On the nil map the assignment `c.Entries[key] = entry` panics; that
is decided in `stepAt`, before the goroutine is let to act. -/
def Cache.Set (c : Entries) (url : GoString) (entry : CacheEntry) : Entries :=
  fun k => if k = urlToKey url then some entry else c k

/-- What `os.Open` and the JSON decoder make of the cache file: it does not
exist; it cannot be opened; it holds the JSON text `null`; or it holds
something else, given by what the decoder stores from it and whether it reports
no error. -/
inductive CacheFile where
  | notExist
  | openError
  | null
  | decoded (entries : Entries) (ok : Bool)

/-- What `Cache.Load` leaves behind: the mapping, whether the map is nil, and
whether the returned error is nil. -/
structure Loaded where
  Entries : Entries
  isNil : Bool
  ok : Bool

/-- Load the cache from a file, `Cache.Load`, into an allocated map.  Decoding
into a map keeps the keys the file does not mention; decoding `null` sets the
map to nil and reports no error. -/
def Cache.Load (file : CacheFile) (c : Entries) : Loaded :=
  match file with
  | .notExist => { Entries := c, isNil := false, ok := true }
  | .openError => { Entries := c, isNil := false, ok := false }
  | .null => { Entries := fun _ => none, isNil := true, ok := true }
  | .decoded entries ok =>
    { Entries := fun k => (entries k).orElse (fun _ => c k), isNil := false, ok := ok }

/-! ## The run -/

/-- Command line options. -/
structure Options where
  InputFile : GoString
  OutputFile : GoString
  CacheFile : GoString
  NoCache : Bool
  Verbosity : Int
  TileGeometry : GoString
  ImageSize : GoString
  Background : GoString

/-- What the calls of one `downloadImage` invocation return. -/
structure Net where
  newRequestOk : Bool
  doOk : Bool
  statusCode : Nat
  createOk : Bool
  copyOk : Bool
deriving DecidableEq, Repr

/-- The status `http.StatusOK`. -/
def StatusOK : Nat := 200

/-- Fetch a URL into a file, `downloadImage`: whether the returned error is
nil, and which paths exist afterwards. -/
def downloadImage (net : Net) (file : GoString) (files : GoString → Bool) :
    Bool × (GoString → Bool) :=
  if !net.newRequestOk then (false, files)
  else if !net.doOk then (false, files)
  else if net.statusCode ≠ StatusOK then (false, files)
  else if !net.createOk then (false, files)
  else
    let files1 := fun p => if p = file then true else files p
    if !net.copyOk then (false, files1) else (true, files1)

/-- Calls the run makes on its collaborators, in the order it makes them:
`Cache.Load`, `downloadImage` by the goroutine of a match, `Cache.Save` with
the mapping it is given, an external command, `createHTMLPreview`. -/
inductive Event where
  | load (file : GoString)
  | fetch (i : Nat) (url file : GoString)
  | save (file : GoString) (entries : Entries)
  | exec (name : GoString) (args : List GoString)
  | preview (imagePaths : List GoString) (montageFile outputFile : GoString)

/-- The state the goroutines share, and the calls made so far. -/
structure World where
  Entries : Entries
  imagePaths : List GoString
  files : GoString → Bool
  trace : List Event

/-- Where a goroutine of `run` stands: before the cache lookup (line 272),
holding an entry before `os.Stat` (line 275), before `downloadImage` (line 295),
before `cache.Set` (line 308), before the append of a path (lines 281 and 314),
returned. -/
inductive Pc where
  | start
  | stat (entry : CacheEntry)
  | download
  | store
  | append (path : GoString)
  | done
deriving DecidableEq, Repr

/-- One goroutine: its arguments `i` and `imageURL`, and where it stands. -/
structure Task where
  i : Nat
  imageURL : GoString
  pc : Pc
deriving DecidableEq, Repr

/-- What the run is given from outside. -/
structure Env where
  cacheFile : CacheFile
  discovered : Option (List GoString)
  mkdirOk : Bool
  files : GoString → Bool
  net : Nat → Net
  now : Nat → Time
  montageOk : Bool
  convertOk : Bool

/-- One atomic action of a goroutine of `run` (lines 254-318), the map of the
cache being allocated; `stepAt` decides the panic on the nil map. -/
def step (opts : Options) (env : Env) (t : Task) (w : World) : Task × World :=
  match t.pc with
  | .start =>
    if !opts.NoCache then
      match Cache.Get w.Entries t.imageURL with
      | some entry => ({ t with pc := .stat entry }, w)
      | none => ({ t with pc := .download }, w)
    else ({ t with pc := .download }, w)
  | .stat entry =>
    if w.files entry.FilePath then ({ t with pc := .append entry.FilePath }, w)
    else ({ t with pc := .download }, w)
  | .download =>
    let r := downloadImage (env.net t.i) (fileName t.imageURL) w.files
    let w1 : World :=
      { w with files := r.2,
               trace := w.trace ++ [.fetch t.i t.imageURL (fileName t.imageURL)] }
    if r.1 then
      if !opts.NoCache then ({ t with pc := .store }, w1)
      else ({ t with pc := .append (fileName t.imageURL) }, w1)
    else ({ t with pc := .done }, w1)
  | .store =>
    let entry : CacheEntry :=
      { URL := t.imageURL, FilePath := fileName t.imageURL,
        FetchedAt := env.now t.i, StatusCode := StatusOK }
    ({ t with pc := .append (fileName t.imageURL) },
     { w with Entries := Cache.Set w.Entries t.imageURL entry })
  | .append path =>
    ({ t with pc := .done }, { w with imagePaths := w.imagePaths ++ [path] })
  | .done => (t, w)

/-- All goroutines of a run and the state they share; whether the map of the
cache is nil (it is allocated by `NewCache` and stays so unless `Cache.Load`
decodes `null`); whether a goroutine has panicked, which ends the process. -/
structure Config where
  pcs : Nat → Pc
  world : World
  nilMap : Bool := false
  panicked : Bool := false

/-- The goroutine of the `i`-th match takes its next action.  After a panic
nothing acts any more.  A goroutine about to call `cache.Set` (line 308) on the
nil map panics at the assignment of line 137. -/
def stepAt (opts : Options) (env : Env) (urls : List GoString) (c : Config) (i : Nat) :
    Config :=
  if c.panicked then c
  else
    match urls[i]? with
    | none => c
    | some imageURL =>
      if c.nilMap && decide (c.pcs i = .store) then { c with panicked := true }
      else
        let r := step opts env { i := i, imageURL := imageURL, pc := c.pcs i } c.world
        { c with pcs := fun j => if j = i then r.1.pc else c.pcs j, world := r.2 }

/-- The goroutines take their actions in the order a schedule names them. -/
def exec (opts : Options) (env : Env) (urls : List GoString) (sched : List Nat)
    (c : Config) : Config :=
  sched.foldl (stepAt opts env urls) c

/-- The actions left to `wg.Wait()`: every goroutine is run up to its return
(none takes more than five actions). -/
def joinSched (n : Nat) : List Nat :=
  (List.range n).flatMap (fun i => List.replicate 5 i)

/-- Lines 205-214 of `run`: whether the map of the cache is nil when the
goroutines start. -/
def mapIsNil (opts : Options) (env : Env) : Bool :=
  !opts.NoCache && (Cache.Load env.cacheFile NewCache).isNil

/-- Lines 252-322 of `run`: one goroutine per match, interleaved as the schedule
says, then joined. -/
def units (opts : Options) (env : Env) (urls : List GoString) (sched : List Nat)
    (w : World) : Config :=
  exec opts env urls (sched ++ joinSched urls.length)
    { pcs := fun _ => .start, world := w, nilMap := mapIsNil opts env }

/-- Lines 205-214 of `run`: the shared state when the goroutines start. -/
def initWorld (opts : Options) (env : Env) : World :=
  let w : World := { Entries := NewCache, imagePaths := [], files := env.files, trace := [] }
  if !opts.NoCache then
    { w with Entries := (Cache.Load env.cacheFile w.Entries).Entries,
             trace := w.trace ++ [.load opts.CacheFile] }
  else w

/-- Lines 339-346 of `run`: the arguments of `montage`. -/
def montageArgs (opts : Options) (imagePaths : List GoString) : List GoString :=
  [ascii "-geometry", opts.ImageSize ++ ascii "+0+0",
   ascii "-tile", opts.TileGeometry,
   ascii "-background", opts.Background,
   ascii "-bordercolor", opts.Background,
   ascii "-mattecolor", opts.Background] ++ imagePaths ++ [opts.OutputFile]

/-- Lines 373-374 of `run`: the arguments of `convert`. -/
def convertArgs (opts : Options) (imagePaths : List GoString) : List GoString :=
  imagePaths ++ [ascii "-resize", opts.ImageSize, ascii "+append", opts.OutputFile]

/-- Remove a trailing suffix, `strings.TrimSuffix`. -/
def TrimSuffix (s suffix : GoString) : GoString :=
  if suffix.isSuffixOf s then s.take (s.length - suffix.length) else s

/-- Line 396 of `run`: the path of the HTML preview. -/
def previewFile (opts : Options) : GoString :=
  TrimSuffix opts.OutputFile (Ext opts.OutputFile) ++ ascii ".html"

/-- How `run` ends: it returns nil, or one of its errors, in source order
`error reading file`, `error creating images directory`,
`no images found in the markdown content`,
`no images were successfully downloaded`, `error using convert fallback`; or it
does not return, a goroutine having panicked. -/
inductive RunResult where
  | ok
  | errReadingFile
  | errCreatingImagesDirectory
  | errNoImagesFound
  | errNoImagesDownloaded
  | errConvertFallback
  | panicked
deriving DecidableEq, Repr

/-- The function `run`: how it ends and the shared state it leaves, given the
options, the outside world and the order in which the goroutines act. -/
def run (opts : Options) (env : Env) (sched : List Nat) : RunResult × World :=
  let w1 := initWorld opts env
  match env.discovered with
  | none => (.errReadingFile, w1)
  | some urls =>
    if !env.mkdirOk then (.errCreatingImagesDirectory, w1)
    else if urls.length = 0 then (.errNoImagesFound, w1)
    else if (units opts env urls sched w1).panicked then
      (.panicked, (units opts env urls sched w1).world)
    else
      let w2 := (units opts env urls sched w1).world
      let w3 : World :=
        if !opts.NoCache then
          { w2 with trace := w2.trace ++ [.save opts.CacheFile w2.Entries] }
        else w2
      if w3.imagePaths.length = 0 then (.errNoImagesDownloaded, w3)
      else
        let w4 : World :=
          { w3 with trace := w3.trace ++ [.exec (ascii "montage") (montageArgs opts w3.imagePaths)] }
        let w6 (w : World) : World :=
          { w with trace := w.trace ++ [.preview w.imagePaths opts.OutputFile (previewFile opts)] }
        if env.montageOk then (.ok, w6 w4)
        else
          let w5 : World :=
            { w4 with trace := w4.trace ++ [.exec (ascii "convert") (convertArgs opts w4.imagePaths)] }
          if env.convertOk then (.ok, w6 w5) else (.errConvertFallback, w5)

/-- How often the trace holds a call of the Fetcher for a URL. -/
def fetchCount (url : GoString) (trace : List Event) : Nat :=
  trace.countP (fun e => match e with
    | .fetch _ u _ => decide (u = url)
    | _ => false)

/-- Whether an event is a call of `Cache.Load` or `Cache.Save`. -/
def Event.isCacheFileAccess : Event → Bool
  | .load _ => true
  | .save _ _ => true
  | _ => false

/-- Whether an event runs an external command. -/
def Event.isExec : Event → Bool
  | .exec _ _ => true
  | _ => false

/-- The part of a URL before its first question mark, as the specification
words it; `cleanURL` is what the program computes. -/
def beforeQuery (u : GoString) : GoString :=
  u.takeWhile (fun b => b != questionMark)

/-- The actions of one goroutine, other goroutines acting in between: its
`k`-th action is taken in the `k`-th of the given shared states, whatever made
it so.  The result is the goroutine afterwards and the shared state each action
left. -/
def actions (opts : Options) (env : Env) : List World → Task → Task × List World
  | [], t => (t, [])
  | w :: ws, t =>
    let r := step opts env t w
    let rest := actions opts env ws r.1
    (rest.1, r.2 :: rest.2)

/-! ## Measures and invariants -/

/-- How many actions a goroutine has left at most. -/
def Pc.rank : Pc → Nat
  | .start => 5
  | .stat _ => 4
  | .download => 3
  | .store => 2
  | .append _ => 1
  | .done => 0

/-- Whether an event is a call of the Fetcher. -/
def Event.isFetch : Event → Bool
  | .fetch _ _ _ => true
  | _ => false

/-- Whether a goroutine is past its call of the Fetcher, or past the point
where it would have made one. -/
def Pc.past : Pc → Bool
  | .store => true
  | .append _ => true
  | .done => true
  | _ => false

/-- The goroutines of a URL that are past the Fetcher. -/
def pastSet (urls : List GoString) (pcs : Nat → Pc) (u : GoString) : Finset Nat :=
  (Finset.range urls.length).filter (fun j => urls[j]? = some u ∧ (pcs j).past = true)

/-- With caching off a goroutine is before its download, before the Fetcher,
before its append, or has returned. -/
def Pc.noCachePc : Pc → Bool
  | .start => true
  | .download => true
  | .append _ => true
  | .done => true
  | _ => false

/-- What holds of every configuration of a run with caching off. -/
def NoCacheInv (urls : List GoString) (u : GoString) (c : Config) : Prop :=
  c.nilMap = false ∧ c.panicked = false ∧
    (∀ j, (c.pcs j).noCachePc = true) ∧
    c.world.Entries = NewCache ∧
    fetchCount u c.world.trace = (pastSet urls c.pcs u).card

/-! ## Example inputs -/

/-- An example URL. -/
def exampleURL : GoString := ascii "http://a/x.png"

/-- A second example URL. -/
def otherURL : GoString := ascii "http://a/y.png"

/-- Example options, the defaults of the command line. -/
def exampleOpts (noCache : Bool) : Options :=
  { InputFile := ascii "paste.md", OutputFile := ascii "montage.jpg",
    CacheFile := ascii "image_cache.json", NoCache := noCache, Verbosity := 0,
    TileGeometry := ascii "3x4", ImageSize := ascii "200x200", Background := ascii "#f5f5f5" }

/-- A fetch that succeeds. -/
def netOk : Net :=
  { newRequestOk := true, doOk := true, statusCode := 200, createOk := true, copyOk := true }

/-- A fetch answered with status 404. -/
def netNotFound : Net :=
  { newRequestOk := true, doOk := true, statusCode := 404, createOk := true, copyOk := true }

/-- An example outside world: no cache file, no file on disk. -/
def exampleEnv (urls : List GoString) (net : Nat → Net) : Env :=
  { cacheFile := .notExist, discovered := some urls, mkdirOk := true,
    files := fun _ => false, net := net, now := fun _ => 0,
    montageOk := true, convertOk := true }

/-- An outside world whose cache file holds the JSON text `null`: one URL
discovered, its fetch answered 200. -/
def nullCacheEnv : Env :=
  { cacheFile := .null, discovered := some [exampleURL], mkdirOk := true,
    files := fun _ => false, net := fun _ => netOk, now := fun _ => 0,
    montageOk := true, convertOk := true }

/-- An example cache entry for the example URL. -/
def exampleEntry : CacheEntry :=
  { URL := exampleURL, FilePath := ascii "images/old.png", FetchedAt := 0, StatusCode := 200 }

/-- An example shared state: the example entry cached, its file on disk or not. -/
def exampleWorld (onDisk : Bool) : World :=
  { Entries := Cache.Set NewCache exampleURL exampleEntry, imagePaths := [],
    files := fun p => onDisk && decide (p = exampleEntry.FilePath), trace := [] }

/-! ## Properties of the file name -/

theorem Index_eq_none {s : GoString} {sep : Byte} (h : Index s sep = none) : sep ∉ s := by
  induction s with
  | nil => simp
  | cons b rest ih =>
    unfold Index at h
    split at h
    · simp at h
    · rename_i hb
      simp only [Option.map_eq_none'] at h
      simp only [List.mem_cons, not_or]
      exact ⟨fun e => hb e.symm, ih h⟩

theorem takeWhile_of_not_mem {s : GoString} {sep : Byte} (h : sep ∉ s) :
    s.takeWhile (fun b => b != sep) = s := by
  induction s with
  | nil => rfl
  | cons b rest ih =>
    simp only [List.mem_cons, not_or] at h
    have hb : (b != sep) = true := by simpa using fun e => h.1 e.symm
    rw [List.takeWhile_cons, hb]
    simp [ih h.2]

theorem take_Index {s : GoString} {sep : Byte} {m : Nat} (h : Index s sep = some m) :
    s.take m = s.takeWhile (fun b => b != sep) := by
  induction s generalizing m with
  | nil => simp [Index] at h
  | cons b rest ih =>
    unfold Index at h
    split at h
    · rename_i hb
      simp only [Option.some.injEq] at h
      subst h
      simp [List.takeWhile_cons, hb]
    · rename_i hb
      simp only [Option.map_eq_some'] at h
      obtain ⟨k, hk, rfl⟩ := h
      have hb2 : (b != sep) = true := by simpa using hb
      rw [List.takeWhile_cons, hb2]
      simp [ih hk]

theorem splitLoop_headD {sep : Byte} {n : Nat} {s : GoString}
    (h : n = 0 → sep ∉ s) :
    (splitLoop sep n s).headD [] = s.takeWhile (fun b => b != sep) := by
  cases n with
  | zero => simp [splitLoop, takeWhile_of_not_mem (h rfl)]
  | succ k =>
    unfold splitLoop
    split
    · rename_i hi
      simp [takeWhile_of_not_mem (Index_eq_none hi)]
    · rename_i m hi
      simp [take_Index hi]

theorem cleanURL_eq_beforeQuery (u : GoString) : cleanURL u = beforeQuery u := by
  unfold cleanURL Split beforeQuery
  apply splitLoop_headD
  intro h
  exact List.count_eq_zero.mp h

theorem leBytes_length (n x : Nat) : (leBytes n x).length = n := by
  induction n generalizing x with
  | zero => rfl
  | succ k ih => simp [leBytes, ih]

theorem md5Sum_length (msg : List Byte) : (md5Sum msg).length = 16 := by
  simp [md5Sum, leBytes_length]

theorem hexEncodeToString_length (src : List Byte) :
    (hexEncodeToString src).length = 2 * src.length := by
  induction src with
  | nil => rfl
  | cons b rest ih =>
    simp only [hexEncodeToString, List.flatMap_cons, List.length_append, List.length_cons] at ih ⊢
    simp only [hexByte, List.length_cons, List.length_nil]
    omega

theorem urlToKey_length (u : GoString) : (urlToKey u).length = 32 := by
  simp [urlToKey, hexEncodeToString_length, md5Sum_length]

theorem hextable_getD_mem : ∀ k, k < 16 → hextable.getD k 0 ∈ hextable := by
  decide

theorem hexByte_mem (v : Byte) : ∀ c ∈ hexByte v, c ∈ hextable := by
  intro c hc
  simp only [hexByte, List.mem_cons, List.mem_singleton, List.not_mem_nil, or_false] at hc
  have h1 : v.val >>> 4 < 16 := by
    rw [Nat.shiftRight_eq_div_pow]
    have := v.isLt
    omega
  have h2 : v.val &&& 0x0f < 16 := by
    have := @Nat.and_le_right v.val 0x0f
    omega
  rcases hc with rfl | rfl
  · exact hextable_getD_mem _ h1
  · exact hextable_getD_mem _ h2

theorem hexEncodeToString_mem (src : List Byte) :
    ∀ c ∈ hexEncodeToString src, c ∈ hextable := by
  intro c hc
  simp only [hexEncodeToString, List.mem_flatMap] at hc
  obtain ⟨v, _, hv⟩ := hc
  exact hexByte_mem v c hv

theorem getD_of_mem_drop {path : GoString} {i : Nat} {x : Byte} (hx : x ∈ path.drop i) :
    ∃ j, i ≤ j ∧ j < path.length ∧ path.getD j 0 = x := by
  obtain ⟨k, hk, rfl⟩ := List.mem_iff_getElem.mp hx
  rw [List.length_drop] at hk
  refine ⟨i + k, by omega, by omega, ?_⟩
  rw [List.getElem_drop, List.getD_eq_getElem?_getD, List.getElem?_eq_getElem (by omega)]
  rfl

theorem extLoop_shape (path : GoString) (k : Nat) (hk : k ≤ path.length)
    (hinv : ∀ j, k ≤ j → j < path.length → path.getD j 0 ≠ slash) :
    extLoop path k = [] ∨
      ((extLoop path k).head? = some dot ∧ slash ∉ extLoop path k) := by
  induction k with
  | zero => left; rfl
  | succ i ih =>
    unfold extLoop
    by_cases hsep : IsPathSeparator (path.getD i 0) = true
    · left; rw [if_pos hsep]
    · rw [if_neg hsep]
      have hns : path.getD i 0 ≠ slash := by
        simpa [IsPathSeparator] using hsep
      by_cases hdot : path.getD i 0 = dot
      · right
        rw [if_pos hdot]
        constructor
        · rw [List.head?_drop, ← hdot, List.getD_eq_getElem?_getD,
            List.getElem?_eq_getElem (by omega)]
          rfl
        · intro hmem
          obtain ⟨j, hij, hj, hx⟩ := getD_of_mem_drop hmem
          rcases Nat.eq_or_lt_of_le hij with rfl | hlt
          · exact hns hx
          · exact hinv j (by omega) hj hx
      · rw [if_neg hdot]
        apply ih (by omega)
        intro j hij hj
        rcases Nat.eq_or_lt_of_le hij with rfl | hlt
        · exact hns
        · exact hinv j (by omega) hj

theorem Ext_shape (path : GoString) :
    Ext path = [] ∨ ((Ext path).head? = some dot ∧ slash ∉ Ext path) :=
  extLoop_shape path path.length (Nat.le_refl _) (fun j h1 h2 => absurd h1 (by omega))

theorem extOf_shape (u : GoString) :
    (extOf u).head? = some dot ∧ slash ∉ extOf u := by
  unfold extOf
  split
  · decide
  · rename_i h
    rcases Ext_shape (cleanURL u) with h0 | h1
    · exact absurd h0 h
    · exact h1


/-- C7: the file a fresh download is written to is `images/`, then the cache
key `urlToKey` computes for the raw URL (the key `Cache.Get` looks up), then
the extension `filepath.Ext` finds in the part of the URL before its first
question mark, `.jpg` standing in for an empty extension. -/
theorem download_file_naming (u : GoString) :
    fileName u = ascii "images/" ++ urlToKey u ++
        (if Ext (beforeQuery u) = [] then ascii ".jpg" else Ext (beforeQuery u)) ∧
      ∀ c : Entries, Cache.Get c u = c (urlToKey u) := by
  refine ⟨?_, fun c => rfl⟩
  simp only [fileName, hashStr, urlToKey, extOf, cleanURL_eq_beforeQuery]

/-- C10: for every URL the download file name is `images/`, then 32 lowercase
hexadecimal digits, then an extension that begins with a dot and holds no
slash, so what follows `images/` holds no slash at all. -/
theorem download_stays_in_images (u : GoString) :
    ∃ key ext : GoString,
      fileName u = ascii "images/" ++ key ++ ext ∧
      key.length = 32 ∧
      (∀ c ∈ key, c ∈ ascii "0123456789abcdef") ∧
      ext.head? = some dot ∧
      slash ∉ ext ∧
      slash ∉ key ++ ext := by
  refine ⟨hashStr u, extOf u, rfl, urlToKey_length u, hexEncodeToString_mem _,
    (extOf_shape u).1, (extOf_shape u).2, ?_⟩
  intro h
  rcases List.mem_append.mp h with h1 | h2
  · exact absurd (hexEncodeToString_mem _ _ h1) (by decide)
  · exact (extOf_shape u).2 h2

theorem fileName_eq_iff (u1 u2 : GoString) (h : extOf u1 = extOf u2) :
    fileName u1 = fileName u2 ↔ urlToKey u1 = urlToKey u2 := by
  constructor
  · intro hf
    simp only [fileName, List.append_assoc] at hf
    have h2 := List.append_cancel_left hf
    exact (List.append_inj h2 (by
      show (urlToKey u1).length = (urlToKey u2).length
      rw [urlToKey_length, urlToKey_length])).1
  · intro hk
    simp only [fileName, hashStr]
    simp only [urlToKey] at hk
    rw [hk, h]

theorem fileName_key (u1 u2 : GoString) (hf : fileName u1 = fileName u2) :
    urlToKey u1 = urlToKey u2 := by
  simp only [fileName, List.append_assoc] at hf
  have h2 := List.append_cancel_left hf
  exact (List.append_inj h2 (by
    show (urlToKey u1).length = (urlToKey u2).length
    rw [urlToKey_length, urlToKey_length])).1

/-- C9, as stated, fails: no two URLs with the same text before the first
question mark have different cache keys and the same download file name. -/
theorem no_query_string_collision :
    ¬ ∃ u1 u2 : GoString,
      beforeQuery u1 = beforeQuery u2 ∧ urlToKey u1 ≠ urlToKey u2 ∧
        fileName u1 = fileName u2 := by
  rintro ⟨u1, u2, _, hk, hf⟩
  exact hk (fileName_key u1 u2 hf)

/-- C9, amended: two URLs with the same text before the first question mark
get the same extension, and they are assigned the same download file name
exactly when they get the same cache key. -/
theorem query_string_file_names (u1 u2 : GoString)
    (h : beforeQuery u1 = beforeQuery u2) :
    extOf u1 = extOf u2 ∧
      (fileName u1 = fileName u2 ↔ urlToKey u1 = urlToKey u2) := by
  have he : extOf u1 = extOf u2 := by
    simp only [extOf, cleanURL_eq_beforeQuery, h]
  exact ⟨he, fileName_eq_iff u1 u2 he⟩

set_option maxRecDepth 100000 in
/-- Two URLs that differ by their query string only: same extension, different
keys, different file names. -/
theorem query_string_file_names_witness :
    beforeQuery (ascii "https://a/b.png?x=1") = beforeQuery (ascii "https://a/b.png?x=2") ∧
      urlToKey (ascii "https://a/b.png?x=1") ≠ urlToKey (ascii "https://a/b.png?x=2") ∧
      (extOf (ascii "https://a/b.png?x=1") = extOf (ascii "https://a/b.png?x=2") ∧
        (fileName (ascii "https://a/b.png?x=1") = fileName (ascii "https://a/b.png?x=2") ↔
          urlToKey (ascii "https://a/b.png?x=1") = urlToKey (ascii "https://a/b.png?x=2"))) :=
  ⟨by decide, by decide,
    query_string_file_names (ascii "https://a/b.png?x=1") (ascii "https://a/b.png?x=2")
      (by decide)⟩

/-! ## The actions of one goroutine -/

/-- C1: with caching on, a goroutine that finds an entry under the key of its
URL and then finds the entry's file on disk takes three actions: the lookup
and the stat leave the shared state as it was, the third appends the entry's
path to the result list, and the goroutine has returned.  No action calls the
Fetcher (the trace is unchanged) and none changes the entry mapping. -/
theorem cache_hit_never_fetches (opts : Options) (env : Env) (t : Task) (e : CacheEntry)
    (w0 w1 w2 : World)
    (hstart : t.pc = .start) (hcache : opts.NoCache = false)
    (hget : w0.Entries (urlToKey t.imageURL) = some e)
    (hstat : w1.files e.FilePath = true) :
    actions opts env [w0, w1, w2] t =
      ({ t with pc := .done },
       [w0, w1, { w2 with imagePaths := w2.imagePaths ++ [e.FilePath] }]) := by
  obtain ⟨i, u, pc⟩ := t
  simp only at hstart hget
  subst hstart
  simp [actions, step, hcache, Cache.Get, hget, hstat]

/-- C2: with caching on, a goroutine that finds an entry under the key of its
URL whose file is not on disk calls the Fetcher for its URL and the freshly
derived file name; when that call succeeds, its next two actions overwrite the
entry under the key of the URL with the raw URL, the fresh file name and status
200, and append the fresh file name to the result list. -/
theorem stale_entry_refetches (opts : Options) (env : Env) (t : Task) (e : CacheEntry)
    (w0 w1 w2 w3 w4 : World)
    (hstart : t.pc = .start) (hcache : opts.NoCache = false)
    (hget : w0.Entries (urlToKey t.imageURL) = some e)
    (hstat : w1.files e.FilePath = false) :
    (actions opts env [w0, w1, w2] t).2 =
        [w0, w1,
         { w2 with
             files := (downloadImage (env.net t.i) (fileName t.imageURL) w2.files).2,
             trace := w2.trace ++ [.fetch t.i t.imageURL (fileName t.imageURL)] }] ∧
      ((downloadImage (env.net t.i) (fileName t.imageURL) w2.files).1 = true →
        actions opts env [w0, w1, w2, w3, w4] t =
          ({ t with pc := .done },
           [w0, w1,
            { w2 with
                files := (downloadImage (env.net t.i) (fileName t.imageURL) w2.files).2,
                trace := w2.trace ++ [.fetch t.i t.imageURL (fileName t.imageURL)] },
            { w3 with
                Entries := fun k =>
                  if k = urlToKey t.imageURL then
                    some { URL := t.imageURL, FilePath := fileName t.imageURL,
                           FetchedAt := env.now t.i, StatusCode := 200 }
                  else w3.Entries k },
            { w4 with imagePaths := w4.imagePaths ++ [fileName t.imageURL] }])) := by
  obtain ⟨i, u, pc⟩ := t
  simp only at hstart hget
  subst hstart
  constructor
  · by_cases hd : (downloadImage (env.net i) (fileName u) w2.files).1 = true <;>
      simp [actions, step, hcache, Cache.Get, hget, hstat, hd]
  · intro hd
    simp [actions, step, hcache, Cache.Get, hget, hstat, hd, StatusOK]
    rfl

theorem downloadImage_fst (net : Net) (file : GoString) (files files1 : GoString → Bool) :
    (downloadImage net file files).1 = (downloadImage net file files1).1 := by
  unfold downloadImage
  repeat (first | rfl | split)

theorem step_task (opts : Options) (env : Env) (i : Nat) (u : GoString) (pc : Pc) (w : World) :
    (step opts env ⟨i, u, pc⟩ w).1 = ⟨i, u, (step opts env ⟨i, u, pc⟩ w).1.pc⟩ := by
  cases pc <;> simp only [step] <;> repeat (first | rfl | split)

theorem actions_cons (opts : Options) (env : Env) (w : World) (ws : List World) (t : Task) :
    actions opts env (w :: ws) t =
      ((actions opts env ws (step opts env t w).1).1,
       (step opts env t w).2 :: (actions opts env ws (step opts env t w).1).2) := rfl

theorem actions_done (opts : Options) (env : Env) (i : Nat) (u : GoString) (ws : List World) :
    ∀ q ∈ ws.zip (actions opts env ws ⟨i, u, .done⟩).2, q.2 = q.1 := by
  induction ws with
  | nil => simp [actions]
  | cons w ws ih =>
    intro q hq
    rw [actions_cons, List.zip_cons_cons, List.mem_cons] at hq
    rcases hq with rfl | hq
    · rfl
    · exact ih q hq

theorem actions_append (opts : Options) (env : Env) (i : Nat) (u path : GoString)
    (ws : List World) :
    ∀ q ∈ ws.zip (actions opts env ws ⟨i, u, .append path⟩).2,
      q.2.trace = q.1.trace ∧ q.2.Entries = q.1.Entries := by
  cases ws with
  | nil => simp [actions]
  | cons w ws =>
    intro q hq
    rw [actions_cons, List.zip_cons_cons, List.mem_cons] at hq
    rcases hq with rfl | hq
    · exact ⟨rfl, rfl⟩
    · have := actions_done opts env i u ws q hq
      rw [this]
      exact ⟨rfl, rfl⟩

theorem step_start_cases (opts : Options) (env : Env) (i : Nat) (u : GoString) (w : World) :
    step opts env ⟨i, u, .start⟩ w = (⟨i, u, .download⟩, w) ∨
      ∃ e, step opts env ⟨i, u, .start⟩ w = (⟨i, u, .stat e⟩, w) := by
  simp only [step]
  split
  · split
    · rename_i e _
      exact Or.inr ⟨e, rfl⟩
    · exact Or.inl rfl
  · exact Or.inl rfl

theorem step_stat_cases (opts : Options) (env : Env) (i : Nat) (u : GoString)
    (e : CacheEntry) (w : World) :
    step opts env ⟨i, u, .stat e⟩ w = (⟨i, u, .append e.FilePath⟩, w) ∨
      step opts env ⟨i, u, .stat e⟩ w = (⟨i, u, .download⟩, w) := by
  simp only [step]
  split
  · exact Or.inl rfl
  · exact Or.inr rfl

/-- The shared state a call of the Fetcher leaves. -/
theorem step_download_world (opts : Options) (env : Env) (i : Nat) (u : GoString) (w : World) :
    (step opts env ⟨i, u, .download⟩ w).2 =
      { w with files := (downloadImage (env.net i) (fileName u) w.files).2,
               trace := w.trace ++ [.fetch i u (fileName u)] } := by
  simp only [step]
  repeat (first | rfl | split)

theorem step_download_fail (opts : Options) (env : Env) (i : Nat) (u : GoString) (w : World)
    (h : (downloadImage (env.net i) (fileName u) w.files).1 = false) :
    (step opts env ⟨i, u, .download⟩ w).1 = ⟨i, u, .done⟩ := by
  simp [step, h]

theorem trace_ne_append (w : World) (x : Event) : ¬ w.trace = w.trace ++ [x] := by
  intro h
  have := congrArg List.length h
  simp at this

theorem failed_aux (opts : Options) (env : Env) (i : Nat) (u : GoString)
    (hfail : ∀ files, (downloadImage (env.net i) (fileName u) files).1 = false)
    (ws : List World) (pc : Pc)
    (hpc : pc = .start ∨ (∃ e, pc = .stat e) ∨ pc = .download)
    (hex : ∃ p ∈ ws.zip (actions opts env ws ⟨i, u, pc⟩).2,
      p.2.trace = p.1.trace ++ [.fetch i u (fileName u)]) :
    ∀ q ∈ ws.zip (actions opts env ws ⟨i, u, pc⟩).2,
      q.2.Entries = q.1.Entries ∧ q.2.imagePaths = q.1.imagePaths := by
  induction ws generalizing pc with
  | nil => simp [actions]
  | cons w ws ih =>
    obtain ⟨p, hp, hpt⟩ := hex
    rw [actions_cons, List.zip_cons_cons, List.mem_cons] at hp
    intro q hq
    rw [actions_cons, List.zip_cons_cons, List.mem_cons] at hq
    rcases hpc with rfl | ⟨e, rfl⟩ | rfl
    · rcases step_start_cases opts env i u w with h | ⟨e, h⟩
      · rw [h] at hp hq
        rcases hp with rfl | hp
        · exact absurd hpt (trace_ne_append _ _)
        · rcases hq with rfl | hq
          · exact ⟨rfl, rfl⟩
          · exact ih .download (Or.inr (Or.inr rfl)) ⟨p, hp, hpt⟩ q hq
      · rw [h] at hp hq
        rcases hp with rfl | hp
        · exact absurd hpt (trace_ne_append _ _)
        · rcases hq with rfl | hq
          · exact ⟨rfl, rfl⟩
          · exact ih (.stat e) (Or.inr (Or.inl ⟨e, rfl⟩)) ⟨p, hp, hpt⟩ q hq
    · rcases step_stat_cases opts env i u e w with h | h
      · rw [h] at hp hq
        rcases hp with rfl | hp
        · exact absurd hpt (trace_ne_append _ _)
        · have := (actions_append opts env i u e.FilePath ws p hp).1
          rw [this] at hpt
          exact absurd hpt (trace_ne_append _ _)
      · rw [h] at hp hq
        rcases hp with rfl | hp
        · exact absurd hpt (trace_ne_append _ _)
        · rcases hq with rfl | hq
          · exact ⟨rfl, rfl⟩
          · exact ih .download (Or.inr (Or.inr rfl)) ⟨p, hp, hpt⟩ q hq
    · rw [step_download_fail opts env i u w (hfail _)] at hq
      rcases hq with rfl | hq
      · rw [step_download_world]
        exact ⟨rfl, rfl⟩
      · rw [actions_done opts env i u ws q hq]
        exact ⟨rfl, rfl⟩

theorem changed_aux (opts : Options) (env : Env) (i : Nat) (u : GoString)
    (ws : List World) (pc : Pc)
    (hpc : pc = .start ∨ (∃ e, pc = .stat e) ∨ pc = .download) :
    ∀ q ∈ ws.zip (actions opts env ws ⟨i, u, pc⟩).2, q.2.Entries ≠ q.1.Entries →
      ∃ p ∈ ws.zip (actions opts env ws ⟨i, u, pc⟩).2,
        p.2.trace = p.1.trace ++ [.fetch i u (fileName u)] ∧
          (downloadImage (env.net i) (fileName u) p.1.files).1 = true := by
  induction ws generalizing pc with
  | nil => simp [actions]
  | cons w ws ih =>
    intro q hq hne
    rw [actions_cons, List.zip_cons_cons, List.mem_cons] at hq
    rw [actions_cons, List.zip_cons_cons]
    rcases hpc with rfl | ⟨e, rfl⟩ | rfl
    · rcases step_start_cases opts env i u w with h | ⟨e, h⟩
      · rw [h] at hq ⊢
        rcases hq with rfl | hq
        · exact absurd rfl hne
        · obtain ⟨p, hp, hp2⟩ := ih .download (Or.inr (Or.inr rfl)) q hq hne
          exact ⟨p, List.mem_cons_of_mem _ hp, hp2⟩
      · rw [h] at hq ⊢
        rcases hq with rfl | hq
        · exact absurd rfl hne
        · obtain ⟨p, hp, hp2⟩ := ih (.stat e) (Or.inr (Or.inl ⟨e, rfl⟩)) q hq hne
          exact ⟨p, List.mem_cons_of_mem _ hp, hp2⟩
    · rcases step_stat_cases opts env i u e w with h | h
      · rw [h] at hq
        rcases hq with rfl | hq
        · exact absurd rfl hne
        · exact absurd (actions_append opts env i u e.FilePath ws q hq).2 hne
      · rw [h] at hq ⊢
        rcases hq with rfl | hq
        · exact absurd rfl hne
        · obtain ⟨p, hp, hp2⟩ := ih .download (Or.inr (Or.inr rfl)) q hq hne
          exact ⟨p, List.mem_cons_of_mem _ hp, hp2⟩
    · by_cases hok : (downloadImage (env.net i) (fileName u) w.files).1 = true
      · refine ⟨_, List.mem_cons_self _ _, ?_, hok⟩
        rw [step_download_world]
      · have hf : (downloadImage (env.net i) (fileName u) w.files).1 = false := by
          simpa using hok
        rw [step_download_fail opts env i u w hf] at hq
        rcases hq with rfl | hq
        · rw [step_download_world] at hne
          exact absurd rfl hne
        · exact absurd (by rw [actions_done opts env i u ws q hq]) hne

/-! ## Scheduling -/

theorem exec_append (opts : Options) (env : Env) (urls : List GoString) (s1 s2 : List Nat)
    (c : Config) :
    exec opts env urls (s1 ++ s2) c = exec opts env urls s2 (exec opts env urls s1 c) := by
  simp [exec, List.foldl_append]

theorem exec_cons (opts : Options) (env : Env) (urls : List GoString) (i : Nat) (s : List Nat)
    (c : Config) :
    exec opts env urls (i :: s) c = exec opts env urls s (stepAt opts env urls c i) := rfl

/-- A property that every action preserves holds after any schedule. -/
theorem exec_invariant (opts : Options) (env : Env) (urls : List GoString) (P : Config → Prop)
    (hstep : ∀ c i, P c → P (stepAt opts env urls c i)) (sched : List Nat) (c : Config)
    (h0 : P c) : P (exec opts env urls sched c) := by
  induction sched generalizing c with
  | nil => exact h0
  | cons i s ih => exact ih _ (hstep c i h0)

/-- The three ways an action can go: nothing happens (the process is dead, or
there is no such goroutine); the goroutine panics on the nil map; or the
goroutine acts. -/
theorem stepAt_cases (opts : Options) (env : Env) (urls : List GoString) (c : Config)
    (i : Nat) :
    stepAt opts env urls c i = c ∨
      (c.panicked = false ∧ c.nilMap = true ∧ c.pcs i = .store ∧
        stepAt opts env urls c i = { c with panicked := true }) ∨
      (c.panicked = false ∧ ¬ (c.nilMap = true ∧ c.pcs i = .store) ∧
        ∃ u, urls[i]? = some u ∧
          stepAt opts env urls c i =
            { c with
                pcs := fun j =>
                  if j = i then (step opts env ⟨i, u, c.pcs i⟩ c.world).1.pc else c.pcs j,
                world := (step opts env ⟨i, u, c.pcs i⟩ c.world).2 }) := by
  unfold stepAt
  by_cases hp : c.panicked = true
  · left; simp [hp]
  · have hp2 : c.panicked = false := by simpa using hp
    simp only [hp2, Bool.false_eq_true, if_false]
    split
    · left; rfl
    · rename_i u hu
      by_cases hn : c.nilMap = true ∧ c.pcs i = .store
      · right; left
        refine ⟨trivial, hn.1, hn.2, ?_⟩
        simp [hn.1, hn.2]
      · right; right
        refine ⟨trivial, hn, u, hu, ?_⟩
        have : (c.nilMap && decide (c.pcs i = .store)) = false := by
          simpa using hn
        simp [this]

/-- An action on an allocated map in a live process. -/
theorem stepAt_allocated (opts : Options) (env : Env) (urls : List GoString) (c : Config)
    (i : Nat) (u : GoString) (hn : c.nilMap = false) (hp : c.panicked = false)
    (hu : urls[i]? = some u) :
    stepAt opts env urls c i =
      { c with
          pcs := fun j =>
            if j = i then (step opts env ⟨i, u, c.pcs i⟩ c.world).1.pc else c.pcs j,
          world := (step opts env ⟨i, u, c.pcs i⟩ c.world).2 } := by
  unfold stepAt
  simp [hn, hp, hu]

theorem stepAt_flags (opts : Options) (env : Env) (urls : List GoString) (c : Config)
    (i : Nat) (hn : c.nilMap = false) (hp : c.panicked = false) :
    (stepAt opts env urls c i).nilMap = false ∧ (stepAt opts env urls c i).panicked = false := by
  rcases stepAt_cases opts env urls c i with h | ⟨_, h, _⟩ | ⟨_, _, u, _, h⟩
  · rw [h]; exact ⟨hn, hp⟩
  · rw [hn] at h; exact absurd h (by simp)
  · rw [h]; exact ⟨hn, hp⟩

theorem exec_flags (opts : Options) (env : Env) (urls : List GoString) (sched : List Nat)
    (c : Config) (hn : c.nilMap = false) (hp : c.panicked = false) :
    (exec opts env urls sched c).nilMap = false ∧
      (exec opts env urls sched c).panicked = false :=
  exec_invariant opts env urls (fun c1 => c1.nilMap = false ∧ c1.panicked = false)
    (fun c1 i h => stepAt_flags opts env urls c1 i h.1 h.2) sched c ⟨hn, hp⟩

theorem step_rank (opts : Options) (env : Env) (t : Task) (w : World) :
    (step opts env t w).1.pc.rank ≤ t.pc.rank - 1 := by
  obtain ⟨i, u, pc⟩ := t
  cases pc <;> simp only [step] <;> (try split) <;> (try split) <;> simp [Pc.rank]

theorem stepAt_pcs_other (opts : Options) (env : Env) (urls : List GoString) (c : Config)
    (i j : Nat) (h : j ≠ i) : (stepAt opts env urls c i).pcs j = c.pcs j := by
  rcases stepAt_cases opts env urls c i with h1 | ⟨_, _, _, h1⟩ | ⟨_, _, u, _, h1⟩
  · rw [h1]
  · rw [h1]
  · rw [h1]; simp [h]

theorem stepAt_rank_self (opts : Options) (env : Env) (urls : List GoString) (c : Config)
    (i : Nat) (h : i < urls.length) (hn : c.nilMap = false) (hp : c.panicked = false) :
    ((stepAt opts env urls c i).pcs i).rank ≤ (c.pcs i).rank - 1 := by
  rw [stepAt_allocated opts env urls c i urls[i] hn hp (List.getElem?_eq_getElem h)]
  simp only [if_true]
  exact step_rank opts env _ _

theorem stepAt_rank_le (opts : Options) (env : Env) (urls : List GoString) (c : Config)
    (i j : Nat) : ((stepAt opts env urls c i).pcs j).rank ≤ (c.pcs j).rank := by
  by_cases h : j = i
  · subst h
    rcases stepAt_cases opts env urls c j with h1 | ⟨_, _, _, h1⟩ | ⟨_, _, u, _, h1⟩
    · rw [h1]
    · rw [h1]
    · rw [h1]
      simp only [if_true]
      exact Nat.le_trans (step_rank opts env _ _) (Nat.sub_le _ _)
  · rw [stepAt_pcs_other opts env urls c i j h]

theorem exec_rank (opts : Options) (env : Env) (urls : List GoString) (sched : List Nat)
    (c : Config) (j : Nat) (h : j < urls.length) (hn : c.nilMap = false)
    (hp : c.panicked = false) :
    ((exec opts env urls sched c).pcs j).rank ≤ (c.pcs j).rank - sched.count j := by
  induction sched generalizing c with
  | nil => simp [exec]
  | cons i s ih =>
    rw [exec_cons]
    have hf := stepAt_flags opts env urls c i hn hp
    have h1 := ih (stepAt opts env urls c i) hf.1 hf.2
    by_cases hij : i = j
    · subst hij
      have h2 := stepAt_rank_self opts env urls c i h hn hp
      simp only [List.count_cons_self]
      omega
    · have h2 := stepAt_rank_le opts env urls c i j
      rw [List.count_cons_of_ne (fun e => hij e.symm)]
      omega

theorem count_joinSched (n j : Nat) (h : j < n) : (joinSched n).count j = 5 := by
  unfold joinSched
  induction n with
  | zero => omega
  | succ k ih =>
    rw [List.range_succ, List.flatMap_append, List.count_append]
    simp only [List.flatMap_cons, List.flatMap_nil, List.append_nil, List.count_replicate]
    by_cases hjk : j = k
    · subst hjk
      have h0 : List.count j ((List.range j).flatMap (fun i => List.replicate 5 i)) = 0 := by
        rw [List.count_eq_zero]
        intro hm
        simp only [List.mem_flatMap, List.mem_range] at hm
        obtain ⟨a, ha, hm⟩ := hm
        have := List.eq_of_mem_replicate hm
        omega
      rw [h0]
      simp
    · have hk : j < k := by omega
      have hkj : (k == j) = false := by simpa using fun e => hjk e.symm
      rw [ih hk, hkj]
      simp

theorem rank_zero {pc : Pc} (h : pc.rank = 0) : pc = .done := by
  cases pc <;> simp [Pc.rank] at h ⊢

/-- When the map of the cache is allocated, no goroutine panics and after the
join every goroutine has returned. -/
theorem units_done (opts : Options) (env : Env) (urls : List GoString) (sched : List Nat)
    (w : World) (hn : mapIsNil opts env = false) :
    (units opts env urls sched w).panicked = false ∧
      ∀ j, j < urls.length → (units opts env urls sched w).pcs j = .done := by
  unfold units
  rw [hn]
  refine ⟨(exec_flags opts env urls _ _ rfl rfl).2, ?_⟩
  intro j h
  apply rank_zero
  rw [exec_append]
  have hf := exec_flags opts env urls sched
    { pcs := fun _ => .start, world := w, nilMap := false } rfl rfl
  have h1 := exec_rank opts env urls (joinSched urls.length)
    (exec opts env urls sched { pcs := fun _ => .start, world := w, nilMap := false }) j h
    hf.1 hf.2
  rw [count_joinSched _ _ h] at h1
  have h2 : ∀ pc : Pc, pc.rank ≤ 5 := by
    intro pc; cases pc <;> simp [Pc.rank]
  have := h2 ((exec opts env urls sched
    { pcs := fun _ => .start, world := w, nilMap := false }).pcs j)
  omega

/-! ## The run -/

theorem step_trace (opts : Options) (env : Env) (t : Task) (w : World) :
    (step opts env t w).2.trace = w.trace ∨
      (t.pc = .download ∧
        (step opts env t w).2.trace = w.trace ++ [.fetch t.i t.imageURL (fileName t.imageURL)]) := by
  obtain ⟨i, u, pc⟩ := t
  cases pc <;> simp only [step] <;> (try split) <;> (try split) <;> simp

theorem step_past (opts : Options) (env : Env) (t : Task) (w : World)
    (h : t.pc.past = true) : (step opts env t w).1.pc.past = true := by
  obtain ⟨i, u, pc⟩ := t
  cases pc <;> simp [Pc.past] at h <;> simp [step, Pc.past]

theorem step_download_past (opts : Options) (env : Env) (i : Nat) (u : GoString) (w : World) :
    (step opts env ⟨i, u, .download⟩ w).1.pc.past = true := by
  simp only [step]
  split
  · split <;> rfl
  · rfl

/-- An action leaves the trace as it was, or it is the call of the Fetcher by a
goroutine that stood before it and is past it afterwards. -/
theorem stepAt_trace (opts : Options) (env : Env) (urls : List GoString) (c : Config) (i : Nat) :
    (stepAt opts env urls c i).world.trace = c.world.trace ∨
      ∃ u, urls[i]? = some u ∧ c.pcs i = .download ∧
        (stepAt opts env urls c i).world.trace = c.world.trace ++ [.fetch i u (fileName u)] ∧
        ((stepAt opts env urls c i).pcs i).past = true := by
  rcases stepAt_cases opts env urls c i with h1 | ⟨_, _, _, h1⟩ | ⟨_, _, u, hu, h1⟩
  · rw [h1]; exact Or.inl rfl
  · rw [h1]; exact Or.inl rfl
  · rw [h1]
    rcases step_trace opts env ⟨i, u, c.pcs i⟩ c.world with h | ⟨h2, h3⟩
    · exact Or.inl h
    · refine Or.inr ⟨u, hu, h2, h3, ?_⟩
      simp only at h2
      simp only [if_true, h2]
      exact step_download_past opts env i u c.world

/-- The goroutines add nothing but calls of the Fetcher to the trace. -/
theorem exec_trace (opts : Options) (env : Env) (urls : List GoString) (sched : List Nat)
    (c : Config) :
    ∀ e ∈ (exec opts env urls sched c).world.trace, e ∈ c.world.trace ∨ e.isFetch = true := by
  apply exec_invariant opts env urls
    (fun c1 => ∀ e ∈ c1.world.trace, e ∈ c.world.trace ∨ e.isFetch = true)
  · intro c1 i h e he
    rcases stepAt_trace opts env urls c1 i with h1 | ⟨u, _, _, h1, _⟩
    · rw [h1] at he
      exact h e he
    · rw [h1, List.mem_append, List.mem_singleton] at he
      rcases he with he | rfl
      · exact h e he
      · exact Or.inr rfl
  · intro e he
    exact Or.inl he

theorem initWorld_trace (opts : Options) (env : Env) :
    ∀ e ∈ (initWorld opts env).trace, e = .load opts.CacheFile ∧ opts.NoCache = false := by
  intro e he
  unfold initWorld at he
  by_cases h : opts.NoCache = true
  · simp [h] at he
  · simp only [Bool.not_eq_true] at h
    simp [h] at he
    exact ⟨he, h⟩

/-! ## Counting fetches -/

theorem card_occurrences (urls : List GoString) (u : GoString) :
    ((Finset.range urls.length).filter (fun j => urls[j]? = some u)).card = urls.count u := by
  induction urls using List.reverseRecOn with
  | nil => simp
  | append_singleton l a ih =>
    rw [List.length_append, List.length_singleton, Finset.range_succ, Finset.filter_insert]
    have hcongr : (Finset.range l.length).filter (fun j => (l ++ [a])[j]? = some u)
        = (Finset.range l.length).filter (fun j => l[j]? = some u) := by
      apply Finset.filter_congr
      intro j hj
      rw [Finset.mem_range] at hj
      rw [List.getElem?_append_left hj]
    have hlast : (l ++ [a])[l.length]? = some a := by
      simp
    rw [hcongr, hlast, List.count_append]
    by_cases hau : a = u
    · subst hau
      rw [if_pos rfl, Finset.card_insert_of_not_mem (by simp), ih]
      simp
    · rw [if_neg (by simpa using hau), ih]
      have h0 : List.count u [a] = 0 := by
        rw [List.count_eq_zero]
        simpa using fun e => hau e.symm
      rw [h0]
      rfl

theorem pastSet_card_le (urls : List GoString) (pcs : Nat → Pc) (u : GoString) :
    (pastSet urls pcs u).card ≤ urls.count u := by
  rw [← card_occurrences]
  apply Finset.card_le_card
  intro j hj
  simp only [pastSet, Finset.mem_filter] at hj ⊢
  exact ⟨hj.1, hj.2.1⟩

theorem pastSet_mono (urls : List GoString) (pcs pcs1 : Nat → Pc) (u : GoString)
    (h : ∀ j, (pcs j).past = true → (pcs1 j).past = true) :
    pastSet urls pcs u ⊆ pastSet urls pcs1 u := by
  intro j hj
  simp only [pastSet, Finset.mem_filter] at hj ⊢
  exact ⟨hj.1, hj.2.1, h j hj.2.2⟩

theorem fetchCount_append_fetch (u : GoString) (tr : List Event) (i : Nat) (v f : GoString) :
    fetchCount u (tr ++ [.fetch i v f]) = fetchCount u tr + (if v = u then 1 else 0) := by
  simp only [fetchCount, List.countP_append, List.countP_cons, List.countP_nil]
  by_cases h : v = u <;> simp [h]

theorem stepAt_past (opts : Options) (env : Env) (urls : List GoString) (c : Config)
    (i j : Nat) (h : (c.pcs j).past = true) :
    ((stepAt opts env urls c i).pcs j).past = true := by
  rcases stepAt_cases opts env urls c i with h1 | ⟨_, _, _, h1⟩ | ⟨_, _, u, _, h1⟩
  · rw [h1]; exact h
  · rw [h1]; exact h
  · rw [h1]
    by_cases hji : j = i
    · subst hji
      simp only [if_true]
      exact step_past opts env _ _ h
    · simp only [hji, if_false]
      exact h

/-- The calls of the Fetcher for a URL never outnumber the goroutines of that
URL that are past the Fetcher. -/
theorem stepAt_fetchCount (opts : Options) (env : Env) (urls : List GoString) (u : GoString)
    (c : Config) (i : Nat)
    (h : fetchCount u c.world.trace ≤ (pastSet urls c.pcs u).card) :
    fetchCount u (stepAt opts env urls c i).world.trace ≤
      (pastSet urls (stepAt opts env urls c i).pcs u).card := by
  have hmono := pastSet_mono urls c.pcs (stepAt opts env urls c i).pcs u
    (fun j hj => stepAt_past opts env urls c i j hj)
  rcases stepAt_trace opts env urls c i with h1 | ⟨v, hv, hpc, h1, hpast⟩
  · rw [h1]
    exact Nat.le_trans h (Finset.card_le_card hmono)
  · rw [h1, fetchCount_append_fetch]
    by_cases hvu : v = u
    · subst hvu
      rw [if_pos rfl]
      have hi : i < urls.length := by
        by_contra hlt
        rw [List.getElem?_eq_none (by omega)] at hv
        exact absurd hv (by simp)
      have hnot : i ∉ pastSet urls c.pcs v := by
        simp [pastSet, hpc, Pc.past]
      have hin : i ∈ pastSet urls (stepAt opts env urls c i).pcs v := by
        simp only [pastSet, Finset.mem_filter, Finset.mem_range]
        exact ⟨hi, hv, hpast⟩
      have hsub : insert i (pastSet urls c.pcs v) ⊆
          pastSet urls (stepAt opts env urls c i).pcs v := by
        intro j hj
        rcases Finset.mem_insert.mp hj with rfl | hj
        · exact hin
        · exact hmono hj
      have := Finset.card_le_card hsub
      rw [Finset.card_insert_of_not_mem hnot] at this
      omega
    · rw [if_neg hvu]
      exact Nat.le_trans h (Finset.card_le_card hmono)

theorem fetchCount_initWorld (opts : Options) (env : Env) (u : GoString) :
    fetchCount u (initWorld opts env).trace = 0 := by
  unfold initWorld
  by_cases h : opts.NoCache = true <;> simp [h, fetchCount]

/-- The calls of the Fetcher in the trace of a run are those of its goroutines. -/
theorem fetchCount_run (opts : Options) (env : Env) (urls : List GoString) (sched : List Nat)
    (u : GoString) (hd : env.discovered = some urls) :
    fetchCount u (run opts env sched).2.trace = 0 ∨
      fetchCount u (run opts env sched).2.trace =
        fetchCount u (units opts env urls sched (initWorld opts env)).world.trace := by
  simp only [run, hd]
  by_cases hmk : env.mkdirOk = true
  swap
  · left; simp [hmk, fetchCount_initWorld]
  by_cases hlen : urls.length = 0
  · left; simp [hmk, hlen, fetchCount_initWorld]
  right
  by_cases hpk : (units opts env urls sched (initWorld opts env)).panicked = true
  · simp [hmk, hlen, hpk]
  by_cases hnc : opts.NoCache = true <;>
  by_cases hp : (units opts env urls sched (initWorld opts env)).world.imagePaths = [] <;>
  by_cases hm : env.montageOk = true <;>
  by_cases hc : env.convertOk = true <;>
  simp [hmk, hlen, hpk, hnc, hp, hm, hc, fetchCount, List.countP_append, List.countP_cons]

theorem units_fetchCount_le (opts : Options) (env : Env) (urls : List GoString)
    (sched : List Nat) (u : GoString) :
    fetchCount u (units opts env urls sched (initWorld opts env)).world.trace ≤ urls.count u := by
  have h := exec_invariant opts env urls
    (fun c => fetchCount u c.world.trace ≤ (pastSet urls c.pcs u).card)
    (fun c i hc => stepAt_fetchCount opts env urls u c i hc)
    (sched ++ joinSched urls.length)
    { pcs := fun _ => .start, world := initWorld opts env, nilMap := mapIsNil opts env }
    (by simp [fetchCount_initWorld])
  exact Nat.le_trans h (pastSet_card_le urls _ u)

/-- C5, amended: in a single run, whatever the cache mode and the order in
which the goroutines act, the Fetcher is called for a URL at most as often as
the URL occurs in the list of discovered URLs. -/
theorem fetches_at_most_occurrences (opts : Options) (env : Env) (urls : List GoString)
    (sched : List Nat) (u : GoString) (hd : env.discovered = some urls) :
    fetchCount u (run opts env sched).2.trace ≤ urls.count u := by
  rcases fetchCount_run opts env urls sched u hd with h | h
  · rw [h]
    exact Nat.zero_le _
  · rw [h]
    exact units_fetchCount_le opts env urls sched u

/-! ## Caching off -/

theorem initWorld_noCache (opts : Options) (env : Env) (h : opts.NoCache = true) :
    initWorld opts env =
      { Entries := NewCache, imagePaths := [], files := env.files, trace := [] } := by
  simp [initWorld, h]

theorem pastSet_congr (urls : List GoString) (pcs pcs1 : Nat → Pc) (u : GoString)
    (h : ∀ j, (pcs1 j).past = (pcs j).past) :
    pastSet urls pcs1 u = pastSet urls pcs u := by
  ext j
  simp only [pastSet, Finset.mem_filter, h]

theorem pastSet_update_same (urls : List GoString) (pcs : Nat → Pc) (u : GoString) (i : Nat)
    (pc : Pc) (h : pc.past = (pcs i).past) :
    pastSet urls (fun j => if j = i then pc else pcs j) u = pastSet urls pcs u := by
  apply pastSet_congr
  intro j
  by_cases hj : j = i
  · subst hj; simp [h]
  · simp [hj]

theorem pastSet_update_new (urls : List GoString) (pcs : Nat → Pc) (u v : GoString) (i : Nat)
    (pc : Pc) (hv : urls[i]? = some v) (hold : (pcs i).past = false) (hnew : pc.past = true) :
    (pastSet urls (fun j => if j = i then pc else pcs j) u).card =
      (pastSet urls pcs u).card + (if v = u then 1 else 0) := by
  have hi : i < urls.length := by
    by_contra hlt
    rw [List.getElem?_eq_none (by omega)] at hv
    exact absurd hv (by simp)
  by_cases hvu : v = u
  · subst hvu
    have hnot : i ∉ pastSet urls pcs v := by
      simp [pastSet, hold]
    have heq : pastSet urls (fun j => if j = i then pc else pcs j) v =
        insert i (pastSet urls pcs v) := by
      ext j
      simp only [pastSet, Finset.mem_filter, Finset.mem_range, Finset.mem_insert]
      by_cases hj : j = i
      · subst hj
        simp [hi, hv, hnew]
      · simp [hj]
    rw [heq, Finset.card_insert_of_not_mem hnot, if_pos rfl]
  · rw [if_neg hvu, Nat.add_zero]
    congr 1
    ext j
    simp only [pastSet, Finset.mem_filter, Finset.mem_range]
    by_cases hj : j = i
    · subst hj
      simp [hv, hvu]
    · simp [hj]

theorem stepAt_noCacheInv (opts : Options) (env : Env) (urls : List GoString) (u : GoString)
    (hnc : opts.NoCache = true) (c : Config) (i : Nat) (h : NoCacheInv urls u c) :
    NoCacheInv urls u (stepAt opts env urls c i) := by
  obtain ⟨hnil, hpan, hpcs, hent, hcount⟩ := h
  cases hu : urls[i]? with
  | none =>
    have : stepAt opts env urls c i = c := by
      unfold stepAt
      simp [hpan, hu]
    rw [this]
    exact ⟨hnil, hpan, hpcs, hent, hcount⟩
  | some v =>
    have hv := hu
    rw [stepAt_allocated opts env urls c i v hnil hpan hu]
    have hpi := hpcs i
    cases hpc : c.pcs i with
    | start =>
      refine ⟨hnil, hpan, ?_, ?_, ?_⟩
      · intro j
        by_cases hj : j = i
        · subst hj; simp [step, hnc, Pc.noCachePc]
        · simp [hj, hpcs j]
      · simp [step, hnc, hent]
      · simp only [step, hnc]
        simp only [Bool.not_true, Bool.false_eq_true, if_false]
        rw [pastSet_update_same urls c.pcs u i .download (by rw [hpc]; rfl)]
        exact hcount
    | stat e => rw [hpc] at hpi; simp [Pc.noCachePc] at hpi
    | store => rw [hpc] at hpi; simp [Pc.noCachePc] at hpi
    | download =>
      have hw := step_download_world opts env i v c.world
      refine ⟨hnil, hpan, ?_, ?_, ?_⟩
      · intro j
        by_cases hj : j = i
        · subst hj
          simp only [if_true]
          simp only [step, hnc]
          split <;> simp [Pc.noCachePc]
        · simp [hj, hpcs j]
      · dsimp only
        rw [hw]
        exact hent
      · dsimp only
        rw [hw]
        dsimp only
        rw [fetchCount_append_fetch, hcount,
          pastSet_update_new urls c.pcs u v i _ hv (by rw [hpc]; rfl)
            (step_download_past opts env i v c.world)]
    | append p =>
      refine ⟨hnil, hpan, ?_, ?_, ?_⟩
      · intro j
        by_cases hj : j = i
        · subst hj; simp [step, Pc.noCachePc]
        · simp [hj, hpcs j]
      · simp [step, hent]
      · simp only [step]
        rw [pastSet_update_same urls c.pcs u i .done (by rw [hpc]; rfl)]
        exact hcount
    | done =>
      refine ⟨hnil, hpan, ?_, ?_, ?_⟩
      · intro j
        by_cases hj : j = i
        · subst hj; simp [step, Pc.noCachePc]
        · simp [hj, hpcs j]
      · simp [step, hent]
      · simp only [step]
        rw [pastSet_update_same urls c.pcs u i .done (by rw [hpc])]
        exact hcount

theorem exec_noCacheInv (opts : Options) (env : Env) (urls : List GoString) (u : GoString)
    (hnc : opts.NoCache = true) (sched : List Nat) :
    NoCacheInv urls u
      (exec opts env urls sched { pcs := fun _ => .start, world := initWorld opts env }) := by
  apply exec_invariant opts env urls (NoCacheInv urls u)
    (fun c i h => stepAt_noCacheInv opts env urls u hnc c i h)
  refine ⟨rfl, rfl, fun j => rfl, ?_, ?_⟩
  · simp [initWorld, hnc]
  · have : pastSet urls (fun _ => Pc.start) u = ∅ := by
      simp [pastSet, Pc.past]
    simp [initWorld, hnc, fetchCount, this]

theorem mapIsNil_noCache (opts : Options) (env : Env) (hnc : opts.NoCache = true) :
    mapIsNil opts env = false := by
  simp [mapIsNil, hnc]

theorem units_noCache (opts : Options) (env : Env) (urls : List GoString) (sched : List Nat)
    (hnc : opts.NoCache = true) :
    units opts env urls sched (initWorld opts env) =
      exec opts env urls (sched ++ joinSched urls.length)
        { pcs := fun _ => .start, world := initWorld opts env } := by
  unfold units
  rw [mapIsNil_noCache opts env hnc]

theorem units_fetchCount_noCache (opts : Options) (env : Env) (urls : List GoString)
    (sched : List Nat) (u : GoString) (hnc : opts.NoCache = true) :
    fetchCount u (units opts env urls sched (initWorld opts env)).world.trace = urls.count u := by
  have h := (exec_noCacheInv opts env urls u hnc (sched ++ joinSched urls.length)).2.2.2.2
  have hdone := (units_done opts env urls sched (initWorld opts env)
    (mapIsNil_noCache opts env hnc)).2
  rw [units_noCache opts env urls sched hnc] at hdone ⊢
  rw [h, ← card_occurrences]
  congr 1
  ext j
  simp only [pastSet, Finset.mem_filter, Finset.mem_range]
  constructor
  · rintro ⟨h1, h2, _⟩
    exact ⟨h1, h2⟩
  · rintro ⟨h1, h2⟩
    refine ⟨h1, h2, ?_⟩
    rw [hdone j h1]
    rfl

/-- C6: with the NoCache option set, whatever a prior run persisted and in
whatever order the goroutines act, the run neither loads nor saves the cache
file, calls the Fetcher for every discovered URL (once per occurrence), and the
entry mapping is empty in every configuration the goroutines pass through and
at the end of the run. -/
theorem no_cache_bypasses_cache (opts : Options) (env : Env) (urls : List GoString)
    (sched : List Nat)
    (hnc : opts.NoCache = true) (hd : env.discovered = some urls) (hmk : env.mkdirOk = true) :
    (∀ e ∈ (run opts env sched).2.trace, e.isCacheFileAccess = false) ∧
      (∀ u, fetchCount u (run opts env sched).2.trace = urls.count u) ∧
      (∀ s, (exec opts env urls s
          { pcs := fun _ => .start, world := initWorld opts env }).world.Entries = NewCache) ∧
      (run opts env sched).2.Entries = NewCache := by
  have hent : ∀ s, (exec opts env urls s
      { pcs := fun _ => .start, world := initWorld opts env }).world.Entries = NewCache :=
    fun s => (exec_noCacheInv opts env urls [] hnc s).2.2.2.1
  have hpk : (units opts env urls sched (initWorld opts env)).panicked = false :=
    (units_done opts env urls sched (initWorld opts env) (mapIsNil_noCache opts env hnc)).1
  have htr : ∀ e ∈ (units opts env urls sched (initWorld opts env)).world.trace,
      e.isCacheFileAccess = false := by
    intro e he
    rcases exec_trace opts env urls _ _ e he with h | h
    · rw [initWorld_noCache opts env hnc] at h
      simp at h
    · cases e <;> simp [Event.isFetch] at h ⊢
      rfl
  refine ⟨?_, ?_, hent, ?_⟩
  · simp only [run, hd, hmk]
    by_cases hlen : urls.length = 0
    · simp [hlen, initWorld_noCache opts env hnc]
    · by_cases hp : (units opts env urls sched (initWorld opts env)).world.imagePaths = [] <;>
      by_cases hm : env.montageOk = true <;>
      by_cases hc : env.convertOk = true <;>
      simp [hlen, hpk, hnc, hp, hm, hc] <;>
      first
        | exact htr
        | (intro e he
           rcases he with he | rfl | rfl | rfl
           · exact htr e he
           all_goals rfl)
  · intro u
    by_cases hlen : urls.length = 0
    · have : urls = [] := List.length_eq_zero.mp hlen
      subst this
      simp [run, hd, hmk, fetchCount_initWorld]
    · rw [← units_fetchCount_noCache opts env urls sched u hnc]
      simp only [run, hd, hmk]
      by_cases hp : (units opts env urls sched (initWorld opts env)).world.imagePaths = [] <;>
      by_cases hm : env.montageOk = true <;>
      by_cases hc : env.convertOk = true <;>
      simp [hlen, hpk, hnc, hp, hm, hc, fetchCount, List.countP_append, List.countP_cons]
  · simp only [run, hd, hmk]
    by_cases hlen : urls.length = 0
    · simp [hlen, initWorld_noCache opts env hnc]
    · have h2 := hent (sched ++ joinSched urls.length)
      rw [← units_noCache opts env urls sched hnc] at h2
      by_cases hp : (units opts env urls sched (initWorld opts env)).world.imagePaths = [] <;>
      by_cases hm : env.montageOk = true <;>
      by_cases hc : env.convertOk = true <;>
      simp [hlen, hpk, hnc, hp, hm, hc] <;>
      exact h2

/-! ## The end of the run -/

/-- Apart from the nil map: for a non-empty list of discovered URLs, whatever
the fetches return and however the goroutines interleave, when the map of the
cache is allocated every goroutine has returned when the result list is
checked; the run returns `no images were successfully downloaded` exactly when
the result list is then empty, and in that case no external command was run;
when the result list is not empty, `montage` is run with the layout options,
then the paths of the result list, then the output file. -/
theorem at_least_one_success_allocated (opts : Options) (env : Env) (urls : List GoString)
    (sched : List Nat)
    (hd : env.discovered = some urls) (hne : urls ≠ []) (hmk : env.mkdirOk = true)
    (hn : mapIsNil opts env = false) :
    (∀ i, i < urls.length →
        (units opts env urls sched (initWorld opts env)).pcs i = .done) ∧
      (run opts env sched).2.imagePaths =
        (units opts env urls sched (initWorld opts env)).world.imagePaths ∧
      ((run opts env sched).1 = .errNoImagesDownloaded ↔
        (run opts env sched).2.imagePaths = []) ∧
      ((run opts env sched).2.imagePaths = [] →
        ∀ e ∈ (run opts env sched).2.trace, e.isExec = false) ∧
      ((run opts env sched).2.imagePaths ≠ [] →
        Event.exec (ascii "montage")
            ([ascii "-geometry", opts.ImageSize ++ ascii "+0+0",
              ascii "-tile", opts.TileGeometry,
              ascii "-background", opts.Background,
              ascii "-bordercolor", opts.Background,
              ascii "-mattecolor", opts.Background] ++
              (run opts env sched).2.imagePaths ++ [opts.OutputFile])
            ∈ (run opts env sched).2.trace ∧
          1 ≤ (run opts env sched).2.imagePaths.length) := by
  have hlen : urls.length ≠ 0 := by
    intro h
    exact hne (List.length_eq_zero.mp h)
  have hdone := units_done opts env urls sched (initWorld opts env) hn
  have hpk := hdone.1
  have htr : ∀ e ∈ (units opts env urls sched (initWorld opts env)).world.trace,
      e.isExec = false := by
    intro e he
    rcases exec_trace opts env urls _ _ e he with h | h
    · rw [(initWorld_trace opts env e h).1]
      rfl
    · cases e <;> simp [Event.isFetch] at h ⊢
      rfl
  refine ⟨hdone.2, ?_, ?_, ?_, ?_⟩
  · simp only [run, hd, hmk, hlen]
    by_cases hnc : opts.NoCache = true <;>
    by_cases hp : (units opts env urls sched (initWorld opts env)).world.imagePaths = [] <;>
    by_cases hm : env.montageOk = true <;>
    by_cases hc : env.convertOk = true <;>
    simp [hpk, hnc, hp, hm, hc]
  · simp only [run, hd, hmk, hlen]
    by_cases hnc : opts.NoCache = true <;>
    by_cases hp : (units opts env urls sched (initWorld opts env)).world.imagePaths = [] <;>
    by_cases hm : env.montageOk = true <;>
    by_cases hc : env.convertOk = true <;>
    simp [hpk, hnc, hp, hm, hc]
  · simp only [run, hd, hmk, hlen]
    by_cases hnc : opts.NoCache = true <;>
    by_cases hp : (units opts env urls sched (initWorld opts env)).world.imagePaths = [] <;>
    by_cases hm : env.montageOk = true <;>
    by_cases hc : env.convertOk = true <;>
    simp [hpk, hnc, hp, hm, hc] <;>
    first
      | exact htr
      | (intro e he
         rcases he with he | rfl
         · exact htr e he
         · rfl)
  · simp only [run, hd, hmk, hlen]
    by_cases hnc : opts.NoCache = true <;>
    by_cases hp : (units opts env urls sched (initWorld opts env)).world.imagePaths = [] <;>
    by_cases hm : env.montageOk = true <;>
    by_cases hc : env.convertOk = true <;>
    simp [hpk, hnc, hp, hm, hc, montageArgs] <;>
    exact List.length_pos.mpr hp

set_option maxRecDepth 100000 in
/-- C4: where the code departs from the claim.  Caching on, the cache file
holding the JSON text `null`, one URL discovered and its fetch answered 200:
`Cache.Load` leaves the map nil, the goroutine fetches and then panics in
`Cache.Set`.  The run does not return, so it does not return
`no images were successfully downloaded` although the result list is empty, and
no external command is run although the fetch succeeded. -/
theorem null_cache_file_panics :
    (run (exampleOpts false) nullCacheEnv []).1 = .panicked ∧
      (run (exampleOpts false) nullCacheEnv []).1 ≠ .errNoImagesDownloaded ∧
      (run (exampleOpts false) nullCacheEnv []).2.imagePaths = [] ∧
      fetchCount exampleURL (run (exampleOpts false) nullCacheEnv []).2.trace = 1 ∧
      (downloadImage (nullCacheEnv.net 0) (fileName exampleURL) nullCacheEnv.files).1 = true ∧
      (∀ e ∈ (run (exampleOpts false) nullCacheEnv []).2.trace, e.isExec = false) := by
  decide

/-! ## One goroutine amid the others, and example runs -/

/-- C3: take the actions of one goroutine from its start, each in the shared
state it finds.  If one of them calls the Fetcher and the call returns an
error, every action leaves the entry mapping and the result list as it found
them; and if some action changes the entry mapping, one of the actions called
the Fetcher for the URL and the call succeeded. -/
theorem failed_fetch_never_touches_cache (opts : Options) (env : Env) (t : Task)
    (ws : List World) (hstart : t.pc = .start) :
    ((∃ p ∈ ws.zip (actions opts env ws t).2,
          p.2.trace = p.1.trace ++ [.fetch t.i t.imageURL (fileName t.imageURL)] ∧
            (downloadImage (env.net t.i) (fileName t.imageURL) p.1.files).1 = false) →
        ∀ q ∈ ws.zip (actions opts env ws t).2,
          q.2.Entries = q.1.Entries ∧ q.2.imagePaths = q.1.imagePaths) ∧
      (∀ q ∈ ws.zip (actions opts env ws t).2, q.2.Entries ≠ q.1.Entries →
        ∃ p ∈ ws.zip (actions opts env ws t).2,
          p.2.trace = p.1.trace ++ [.fetch t.i t.imageURL (fileName t.imageURL)] ∧
            (downloadImage (env.net t.i) (fileName t.imageURL) p.1.files).1 = true) := by
  obtain ⟨i, u, pc⟩ := t
  simp only at hstart
  subst hstart
  constructor
  · rintro ⟨p, hp, hpt, hpf⟩
    apply failed_aux opts env i u _ ws .start (Or.inl rfl) ⟨p, hp, hpt⟩
    intro files
    rw [downloadImage_fst _ _ files p.1.files]
    exact hpf
  · exact changed_aux opts env i u ws .start (Or.inl rfl)

/-- A goroutine whose fetch is answered 404, the cache being off. -/
theorem failed_fetch_never_touches_cache_witness :
    (Task.mk 0 exampleURL .start).pc = .start ∧
      (((∃ p ∈ [exampleWorld false, exampleWorld false, exampleWorld false].zip
            (actions (exampleOpts true) (exampleEnv [exampleURL] (fun _ => netNotFound))
              [exampleWorld false, exampleWorld false, exampleWorld false]
              (Task.mk 0 exampleURL .start)).2,
          p.2.trace = p.1.trace ++ [.fetch 0 exampleURL (fileName exampleURL)] ∧
            (downloadImage netNotFound (fileName exampleURL) p.1.files).1 = false) →
        ∀ q ∈ [exampleWorld false, exampleWorld false, exampleWorld false].zip
            (actions (exampleOpts true) (exampleEnv [exampleURL] (fun _ => netNotFound))
              [exampleWorld false, exampleWorld false, exampleWorld false]
              (Task.mk 0 exampleURL .start)).2,
          q.2.Entries = q.1.Entries ∧ q.2.imagePaths = q.1.imagePaths) ∧
      (∀ q ∈ [exampleWorld false, exampleWorld false, exampleWorld false].zip
            (actions (exampleOpts true) (exampleEnv [exampleURL] (fun _ => netNotFound))
              [exampleWorld false, exampleWorld false, exampleWorld false]
              (Task.mk 0 exampleURL .start)).2,
          q.2.Entries ≠ q.1.Entries →
        ∃ p ∈ [exampleWorld false, exampleWorld false, exampleWorld false].zip
            (actions (exampleOpts true) (exampleEnv [exampleURL] (fun _ => netNotFound))
              [exampleWorld false, exampleWorld false, exampleWorld false]
              (Task.mk 0 exampleURL .start)).2,
          p.2.trace = p.1.trace ++ [.fetch 0 exampleURL (fileName exampleURL)] ∧
            (downloadImage netNotFound (fileName exampleURL) p.1.files).1 = true)) :=
  ⟨rfl, failed_fetch_never_touches_cache (exampleOpts true)
    (exampleEnv [exampleURL] (fun _ => netNotFound)) (Task.mk 0 exampleURL .start)
    [exampleWorld false, exampleWorld false, exampleWorld false] rfl⟩

/-- A cached entry whose file is on disk. -/
theorem cache_hit_never_fetches_witness :
    (Task.mk 0 exampleURL .start).pc = .start ∧
      (exampleOpts false).NoCache = false ∧
      (exampleWorld true).Entries (urlToKey exampleURL) = some exampleEntry ∧
      (exampleWorld true).files exampleEntry.FilePath = true ∧
      actions (exampleOpts false) (exampleEnv [exampleURL] (fun _ => netOk))
          [exampleWorld true, exampleWorld true, exampleWorld true]
          (Task.mk 0 exampleURL .start) =
        ({ Task.mk 0 exampleURL .start with pc := .done },
         [exampleWorld true, exampleWorld true,
          { exampleWorld true with
              imagePaths := (exampleWorld true).imagePaths ++ [exampleEntry.FilePath] }]) :=
  ⟨rfl, rfl, by simp [exampleWorld, Cache.Set], by simp [exampleWorld],
    cache_hit_never_fetches (exampleOpts false) (exampleEnv [exampleURL] (fun _ => netOk))
      (Task.mk 0 exampleURL .start) exampleEntry
      (exampleWorld true) (exampleWorld true) (exampleWorld true)
      rfl rfl (by simp [exampleWorld, Cache.Set]) (by simp [exampleWorld])⟩

/-- A cached entry whose file is gone, and a fetch that succeeds. -/
theorem stale_entry_refetches_witness :
    (Task.mk 0 exampleURL .start).pc = .start ∧
      (exampleOpts false).NoCache = false ∧
      (exampleWorld false).Entries (urlToKey exampleURL) = some exampleEntry ∧
      (exampleWorld false).files exampleEntry.FilePath = false ∧
      (downloadImage netOk (fileName exampleURL) (exampleWorld false).files).1 = true ∧
      actions (exampleOpts false) (exampleEnv [exampleURL] (fun _ => netOk))
          [exampleWorld false, exampleWorld false, exampleWorld false,
           exampleWorld false, exampleWorld false]
          (Task.mk 0 exampleURL .start) =
        ({ Task.mk 0 exampleURL .start with pc := .done },
         [exampleWorld false, exampleWorld false,
          { exampleWorld false with
              files := (downloadImage netOk (fileName exampleURL) (exampleWorld false).files).2,
              trace := (exampleWorld false).trace ++
                [.fetch 0 exampleURL (fileName exampleURL)] },
          { exampleWorld false with
              Entries := fun k =>
                if k = urlToKey exampleURL then
                  some { URL := exampleURL, FilePath := fileName exampleURL,
                         FetchedAt := 0, StatusCode := 200 }
                else (exampleWorld false).Entries k },
          { exampleWorld false with
              imagePaths := (exampleWorld false).imagePaths ++ [fileName exampleURL] }]) :=
  ⟨rfl, rfl, by simp [exampleWorld, Cache.Set], by simp [exampleWorld], by decide,
    (stale_entry_refetches (exampleOpts false) (exampleEnv [exampleURL] (fun _ => netOk))
      (Task.mk 0 exampleURL .start) exampleEntry
      (exampleWorld false) (exampleWorld false) (exampleWorld false)
      (exampleWorld false) (exampleWorld false)
      rfl rfl (by simp [exampleWorld, Cache.Set]) (by simp [exampleWorld])).2 (by decide)⟩

set_option maxRecDepth 100000 in
/-- C5, as stated, fails: the same URL discovered twice, caching off, is
fetched twice in one run. -/
theorem duplicate_url_fetched_twice :
    ¬ fetchCount exampleURL
        (run (exampleOpts true) (exampleEnv [exampleURL, exampleURL] (fun _ => netOk))
          []).2.trace ≤ 1 := by
  decide

set_option maxRecDepth 100000 in
/-- The same URL discovered twice, caching on and the cache empty: fetched
twice, which is how often it occurs. -/
theorem fetches_at_most_occurrences_witness :
    (exampleEnv [exampleURL, exampleURL] (fun _ => netOk)).discovered
        = some [exampleURL, exampleURL] ∧
      fetchCount exampleURL
        (run (exampleOpts false) (exampleEnv [exampleURL, exampleURL] (fun _ => netOk))
          [0, 1, 0, 1]).2.trace = 2 ∧
      fetchCount exampleURL
        (run (exampleOpts false) (exampleEnv [exampleURL, exampleURL] (fun _ => netOk))
          [0, 1, 0, 1]).2.trace ≤ [exampleURL, exampleURL].count exampleURL :=
  ⟨rfl, by decide,
    fetches_at_most_occurrences (exampleOpts false)
      (exampleEnv [exampleURL, exampleURL] (fun _ => netOk)) [exampleURL, exampleURL]
      [0, 1, 0, 1] exampleURL rfl⟩

/-- Caching off, two URLs discovered. -/
theorem no_cache_bypasses_cache_witness :
    (exampleOpts true).NoCache = true ∧
      (exampleEnv [exampleURL, otherURL] (fun _ => netOk)).discovered
        = some [exampleURL, otherURL] ∧
      (exampleEnv [exampleURL, otherURL] (fun _ => netOk)).mkdirOk = true ∧
      (∀ u, fetchCount u
        (run (exampleOpts true) (exampleEnv [exampleURL, otherURL] (fun _ => netOk))
          [1, 0, 1]).2.trace = [exampleURL, otherURL].count u) :=
  ⟨rfl, rfl, rfl,
    (no_cache_bypasses_cache (exampleOpts true)
      (exampleEnv [exampleURL, otherURL] (fun _ => netOk)) [exampleURL, otherURL]
      [1, 0, 1] rfl rfl rfl).2.1⟩

end Boldbadger
